import Mathlib

/-!
Verification of the proto2diagram library against its specification.

The definitions below are shallow embeddings of the JavaScript/TypeScript
sources:

* `src/imageEncoder/plantumlEncoder.ts` — the diagram encoder (`encode`,
  `encode64`, `append3bytes`, `encode6bit`, `compressAndEncode`);
* `src/plantumlEncoder.js` — the second, tagged-result encoder variant
  that `index.js` imports for the `generateDiagramUrl` path
  (`compressAndEncodeJS`, `convertToHex`, `generatePlantUMLImageUrl`; its
  `encode64`/`append3bytes`/`encode6bit` are textually identical to the
  TS ones and share their embedding);
* `src/protoParser.js` — the `ProtoParser` class (`toCamelCase`,
  `isWellKnownType`, `resolveTypeName`, `getCardinality`, `isOptionalField`,
  `getRelationshipType`, `collectTypes`, `generateEnumName`,
  `extractFieldType`);
* `src/plantUMLGenerator.js` — the `PlantUMLGenerator` class
  (`generateFromRoot`, `processNamespace`, `processMessageType`,
  `processMessageField`, `processOneofNotes`, `processEnumType`,
  `processServiceType`, `createRelationship`, `analyzePackageStructure`,
  `countContentAtLevels`, `shouldUsePackageBlock`, `getOptimalPackageName`,
  `findContentNamespace`, `collectAllContent`, `processNamespaceFlat`);
* `src/config.js` — the `CONFIG` constants.

Conventions: JavaScript machine numbers are modelled as `Nat` (all values
involved are small non-negative integers, so 32-bit coercions never wrap);
JavaScript strings of byte char-codes are modelled as `List Nat`; thrown
exceptions are modelled with `Except String`; JS `Set` accumulators are
modelled as duplicate-free insertion-ordered lists (`if contains then id
else append`), which preserves exactly the membership and insertion-order
behaviour the code relies on.  The protobufjs namespace tree consumed by
the library is modelled by the mutual inductives `PValue`/`PEntries`
(`Object.entries(ns.nested)` becomes the ordered entry list `PEntries`).
The pako compression library and the protobufjs text parser are external
to the repository, so compression is passed in as an abstract function
parameter and trees are built directly.  Absent JS string properties are
modelled as `""` (falsy, like `undefined` in the source's truthiness
tests); absent objects as `Option`/empty lists.
-/

set_option maxRecDepth 8192

/-! ### CONFIG constants (src/config.js) -/

/-- `CONFIG.UML.RELATIONSHIPS.COMPOSITION`: the containment relationship
marker. -/
def CONFIG_COMPOSITION : String := "--*"

/-- `CONFIG.UML.RELATIONSHIPS.AGGREGATION`: the reference relationship
marker. -/
def CONFIG_AGGREGATION : String := "--o"

/-- `CONFIG.UML.RELATIONSHIPS.ASSOCIATION`: the service relationship
marker. -/
def CONFIG_ASSOCIATION : String := "-->"

/-- `CONFIG.UML.CARDINALITY.OPTIONAL`. -/
def CONFIG_CARD_OPTIONAL : String := "\"0..1\""

/-- `CONFIG.UML.CARDINALITY.REQUIRED`. -/
def CONFIG_CARD_REQUIRED : String := "\"1\""

/-- `CONFIG.UML.CARDINALITY.MULTIPLE`. -/
def CONFIG_CARD_MULTIPLE : String := "\"0..*\""

/-- `CONFIG.WELL_KNOWN_TYPE_PREFIX`. -/
def wellKnownTypeMarker : String := "google.protobuf."

/-! ### Encoder: shallow embedding of src/imageEncoder/plantumlEncoder.ts -/

/-- Embedding of `encode6bit` (plantumlEncoder.ts lines 40-60): maps a 6-bit
value to the custom alphabet by successive range subtraction, with a `'?'`
error branch for out-of-range values. -/
def encode6bit (b : Nat) : Char :=
  if b < 10 then Char.ofNat (48 + b)
  else
    let bA := b - 10
    if bA < 26 then Char.ofNat (65 + bA)
    else
      let bB := bA - 26
      if bB < 26 then Char.ofNat (97 + bB)
      else
        let bC := bB - 26
        if bC = 0 then '-'
        else if bC = 1 then '_'
        else '?'

/-- Embedding of `append3bytes` (plantumlEncoder.ts lines 27-38): splits
three input bytes into four 6-bit values (each defensively masked with
`0x3f` before character encoding) and encodes each. -/
def append3bytes (b1 b2 b3 : Nat) : List Char :=
  [ encode6bit ((b1 >>> 2) &&& 0x3f),
    encode6bit ((((b1 &&& 0x3) <<< 4) ||| (b2 >>> 4)) &&& 0x3f),
    encode6bit ((((b2 &&& 0xf) <<< 2) ||| (b3 >>> 6)) &&& 0x3f),
    encode6bit ((b3 &&& 0x3f) &&& 0x3f) ]

/-- Embedding of `encode64` (plantumlEncoder.ts lines 13-25): walks the
byte stream three bytes at a time; a final group of two bytes is padded
with one zero byte, a final group of one byte with two zero bytes.  The JS
code iterates over a string of char codes; here the byte stream is a
`List Nat` directly. -/
def encode64 : List Nat → List Char
  | [] => []
  | [b1] => append3bytes b1 0 0
  | [b1, b2] => append3bytes b1 b2 0
  | b1 :: b2 :: b3 :: rest => append3bytes b1 b2 b3 ++ encode64 rest

/-- UTF-8 bytes of a string (the flattened per-character UTF-8 encoding,
which is exactly what `String.toUTF8` holds), as produced by
`new TextEncoder().encode(...)` in the TS encoder and by
`unescape(encodeURIComponent(...))` in the JS encoder. -/
def utf8Bytes (s : String) : List Nat :=
  ((s.data.map String.utf8EncodeChar).flatten).map (fun b => b.toNat)

/-- Embedding of `compressAndEncode` (plantumlEncoder.ts lines 62-77).
The pako `deflateRaw` call is external to the repository and may throw, so
it is passed in as an abstract fallible function; the `try/catch` that
rethrows a wrapped error is modelled with `Except`.  On success the
compressed bytes are fed to `encode64` (the JS round-trip through a string
of char codes is the identity on bytes). -/
def compressAndEncode (deflateRaw : List Nat → Except String (List Nat))
    (pumlText : String) : Except String String :=
  match deflateRaw (utf8Bytes pumlText) with
  | .error e => .error ("Pako compression failed: \" " ++ e)
  | .ok compressed => .ok (String.mk (encode64 compressed))

/-- Embedding of the exported `encode` (plantumlEncoder.ts lines 8-80),
which simply delegates to `compressAndEncode`. -/
def encode (deflateRaw : List Nat → Except String (List Nat))
    (pumlText : String) : Except String String :=
  compressAndEncode deflateRaw pumlText

/-- The tagged result of the JS encoder variant: encoded data plus the
encoding type (`"deflate"` or `"hex"`). -/
structure EncodedResult where
  data : String
  type : String
deriving Repr, DecidableEq

/-- One hexadecimal digit as JS `Number.prototype.toString(16)` renders
it (lowercase letters). -/
def hexDigit (n : Nat) : Char :=
  if n < 10 then Char.ofNat (48 + n) else Char.ofNat (87 + n)

/-- Embedding of `convertToHex` (src/plantumlEncoder.js): every byte of
the UTF-8 byte string rendered as two lowercase hex digits
(`charCode.toString(16).padStart(2, "0")`). -/
def convertToHex (bytes : List Nat) : String :=
  String.mk ((bytes.map (fun b => [hexDigit (b / 16), hexDigit (b % 16)])).flatten)

/-- Embedding of `compressAndEncode` from src/plantumlEncoder.js — the
encoder `index.js` imports for the main `generateDiagramUrl` path.  The
`pako && pako.deflateRaw` guard always passes (pako is imported), so the
pako branch runs: on success the compressed bytes are `encode64`-encoded
and tagged `"deflate"`; when `deflateRaw` throws, the `catch` only logs
the error (`console.error`) and execution falls through.  The legacy
`deflate`/`zip_deflate` globals are undefined in this library, so the
fall-through reaches the final hex fallback, returning the hex-encoded
UTF-8 bytes tagged `"hex"`. -/
def compressAndEncodeJS (deflateRaw : List Nat → Except String (List Nat))
    (plantumlText : String) : EncodedResult :=
  let s := utf8Bytes plantumlText
  match deflateRaw s with
  | .ok compressed => { data := String.mk (encode64 compressed), type := "deflate" }
  | .error _ => { data := convertToHex s, type := "hex" }

/-- Embedding of `generatePlantUMLImageUrl` (src/plantumlEncoder.js
lines 627-636): appends the encoded data to the base URL, prefixed with
the hex-fallback marker `~h` when the encoding type is `"hex"`. -/
def generatePlantUMLImageUrl (deflateRaw : List Nat → Except String (List Nat))
    (plantumlText baseUrl : String) : String :=
  let result := compressAndEncodeJS deflateRaw plantumlText
  if result.type = "hex" then baseUrl ++ "~h" ++ result.data
  else baseUrl ++ result.data

/-! ### Spec-side description of the encoding (claim C8) and its inverse -/

/-- Alphabet map exactly as the spec words it: values 0-9 map to digits,
10-35 to uppercase letters, 36-61 to lowercase letters, 62 to `-`,
63 to `_`. -/
def alphabetSpec (v : Nat) : Char :=
  if v < 10 then Char.ofNat (48 + v)
  else if v < 36 then Char.ofNat (65 + (v - 10))
  else if v < 62 then Char.ofNat (97 + (v - 36))
  else if v = 62 then '-'
  else if v = 63 then '_'
  else '?'

/-- Spec-side grouping: the byte stream taken 3 bytes at a time, the final
group zero-padded when fewer than 3 bytes remain. -/
def chunk3 : List Nat → List (Nat × Nat × Nat)
  | [] => []
  | [b1] => [(b1, 0, 0)]
  | [b1, b2] => [(b1, b2, 0)]
  | b1 :: b2 :: b3 :: rest => (b1, b2, b3) :: chunk3 rest

/-- Spec-side bit split of one 3-byte group into 4 characters, in
arithmetic form (for a byte `b < 256`: first 6 bits are `b / 4`, last 2
bits are `b % 4`, first 4 bits are `b / 16`, last 4 bits are `b % 16`,
first 2 bits are `b / 64`, last 6 bits are `b % 64`). -/
def specGroupChars : Nat × Nat × Nat → List Char
  | (b1, b2, b3) =>
    [ alphabetSpec (b1 / 4),
      alphabetSpec (b1 % 4 * 16 + b2 / 16),
      alphabetSpec (b2 % 16 * 4 + b3 / 64),
      alphabetSpec (b3 % 64) ]

/-- Spec-side encoder of claim C8: chunk into zero-padded 3-byte groups,
expand each group to exactly 4 characters via the bit split. -/
def encode64Spec (bytes : List Nat) : List Char :=
  ((chunk3 bytes).map specGroupChars).flatten

/-- Inverse of the 64-character transform: maps an alphabet character back
to its 6-bit value (unmapped characters to 0). -/
def decode6bit (c : Char) : Nat :=
  if 48 ≤ c.toNat ∧ c.toNat ≤ 57 then c.toNat - 48
  else if 65 ≤ c.toNat ∧ c.toNat ≤ 90 then c.toNat - 65 + 10
  else if 97 ≤ c.toNat ∧ c.toNat ≤ 122 then c.toNat - 97 + 36
  else if c = '-' then 62
  else if c = '_' then 63
  else 0

/-- Inverse of the 64-character transform at the stream level: every 4
characters are decoded back into the 3 bytes they came from. -/
def decode64 : List Char → List Nat
  | c1 :: c2 :: c3 :: c4 :: rest =>
      (decode6bit c1 * 4 + decode6bit c2 / 16) ::
      (decode6bit c2 % 16 * 16 + decode6bit c3 / 4) ::
      (decode6bit c3 % 4 * 64 + decode6bit c4) :: decode64 rest
  | _ => []

/-- The 64-character URL-safe output alphabet (claim C10). -/
def urlSafeChars : List Char :=
  "0123456789ABCDEFGHIJKLMNOPQRSTUVWXYZabcdefghijklmnopqrstuvwxyz-_".data

/-- Identity compression, used to witness the round-trip theorem. -/
def idDeflate : List Nat → List Nat := fun bs => bs

/-- Decompressor for the witness: the constant decoder of the diagram
text `"@"` (it trivially inverts `idDeflate` on that text, with or
without trailing zero padding). -/
def constInflate : List Nat → Option String := fun _ => some "@"

/-- Compression function that always throws, used to witness C2. -/
def failingDeflate : List Nat → Except String (List Nat) :=
  fun _ => .error "boom"

/-! ### Parser helpers: shallow embedding of src/protoParser.js -/

/-- A protobufjs `Field` object, with the properties the library reads.
`rule` is the protobufjs rule string (`"optional"`, `"repeated"`, ...,
or absent) and `partOf` is the truthiness of the oneof back-reference. -/
structure PBField where
  name : String
  type : String
  keyType : Option String := none
  map : Bool := false
  repeated : Bool := false
  rule : Option String := none
  partOf : Bool := false
  reserved : Bool := false
deriving Repr, DecidableEq

/-- A protobufjs `OneOf` object: its name and the names of the fields in
its `fieldsArray`. -/
structure POneof where
  name : String
  fieldNames : List String
deriving Repr, DecidableEq

/-- A protobufjs `Method` (RPC) object. -/
structure PMethod where
  name : String
  requestType : String
  responseType : String
deriving Repr, DecidableEq

mutual
/-- A node of the protobufjs namespace tree: a `protobuf.Type` (message),
`protobuf.Enum`, `protobuf.Service`, or plain `protobuf.Namespace`. -/
inductive PValue where
  | msg (name : String) (fields : List PBField) (oneofs : List POneof) (nested : PEntries)
  | enm (name : String) (values : List String)
  | srv (name : String) (methods : List PMethod)
  | ns (nested : PEntries)
deriving Repr
/-- The ordered `Object.entries(ns.nested)` list of a namespace node. -/
inductive PEntries where
  | nil
  | cons (key : String) (value : PValue) (rest : PEntries)
deriving Repr
end

mutual
/-- Structural (JS reference) equality test for tree nodes, used by
`findContentNamespace`'s `found !== value` check. -/
def beqPValue : PValue → PValue → Bool
  | .msg n1 f1 o1 e1, .msg n2 f2 o2 e2 =>
      n1 == n2 && f1 == f2 && o1 == o2 && beqPEntries e1 e2
  | .enm n1 v1, .enm n2 v2 => n1 == n2 && v1 == v2
  | .srv n1 m1, .srv n2 m2 => n1 == n2 && m1 == m2
  | .ns e1, .ns e2 => beqPEntries e1 e2
  | _, _ => false
/-- Structural equality test for entry lists. -/
def beqPEntries : PEntries → PEntries → Bool
  | .nil, .nil => true
  | .cons k1 v1 r1, .cons k2 v2 r2 =>
      k1 == k2 && beqPValue v1 v2 && beqPEntries r1 r2
  | _, _ => false
end

/-- Whether an entry list is empty (JS falsiness of the `.nested`
property, which protobufjs leaves undefined when there are no nested
objects). -/
def PEntries.isNil : PEntries → Bool
  | .nil => true
  | .cons _ _ _ => false

/-- The `.nested` property of a node (empty for enums and services, whose
protobufjs objects carry no nested namespace in this library's inputs). -/
def nestedOf : PValue → PEntries
  | .msg _ _ _ n => n
  | .ns n => n
  | _ => .nil

/-- JS truthiness of `value.nested`: a message or namespace with a
non-empty nested object map. -/
def hasNestedProp (v : PValue) : Bool :=
  match v with
  | .msg _ _ _ n => !n.isNil
  | .ns n => !n.isNil
  | _ => false

/-- The `instanceof protobuf.Type / Enum / Service` test used to detect
direct content. -/
def isContentValue : PValue → Bool
  | .msg _ _ _ _ => true
  | .enm _ _ => true
  | .srv _ _ => true
  | .ns _ => false

/-- The `instanceof protobuf.Type` test. -/
def isMsgValue : PValue → Bool
  | .msg _ _ _ _ => true
  | _ => false

/-- The `name` property of a node (`""` models the absent name of a plain
namespace). -/
def nameOf : PValue → String
  | .msg n _ _ _ => n
  | .enm n _ => n
  | .srv n _ => n
  | .ns _ => ""

/-- The `values` property of an enum node. -/
def enumValuesOf : PValue → List String
  | .enm _ v => v
  | _ => []

/-- The `methods` property of a service node. -/
def methodsOf : PValue → List PMethod
  | .srv _ m => m
  | _ => []

/-- Embedding of `toCamelCase`'s regex `str.replace(/_([a-z])/g, ...)`
(protoParser.js lines 96-102): a left-to-right, non-overlapping scan that
replaces each underscore followed by an ASCII lowercase letter with that
letter uppercased, resuming after the match. -/
def camelChars : List Char → List Char
  | [] => []
  | '_' :: c :: rest =>
      if c.isLower then c.toUpper :: camelChars rest
      else '_' :: camelChars (c :: rest)
  | c :: rest => c :: camelChars rest

/-- Embedding of `toCamelCase` (protoParser.js lines 96-102).  The
empty-string guard of the source is the identity here, as in JS. -/
def toCamelCase (str : String) : String := String.mk (camelChars str.data)

/-- Spec-side conversion for the amended claim C3: an underscore
immediately followed by an ASCII lowercase letter (codes 97-122) is
removed and the letter replaced by its uppercase counterpart (code minus
32); any other underscore is left unchanged. -/
def camelSpecChars : List Char → List Char
  | [] => []
  | '_' :: c :: rest =>
      if 97 ≤ c.toNat ∧ c.toNat ≤ 122 then
        Char.ofNat (c.toNat - 32) :: camelSpecChars rest
      else '_' :: camelSpecChars (c :: rest)
  | c :: rest => c :: camelSpecChars rest

/-- Spec-side conversion for the amended claim C3, at string level. -/
def camelSpec (s : String) : String := String.mk (camelSpecChars s.data)

/-- Character-level embedding of JS `String.prototype.split('.')`:
splits at every dot, keeping empty pieces (`""` splits to `[""]`). -/
def splitDotChars : List Char → List (List Char)
  | [] => [[]]
  | '.' :: rest => [] :: splitDotChars rest
  | c :: rest =>
    match splitDotChars rest with
    | [] => [[c]]
    | p :: ps => (c :: p) :: ps

/-- JS `packageName.split('.')`. -/
def splitDot (s : String) : List String := (splitDotChars s.data).map String.mk

/-- The ASCII whitespace characters JS `trim` strips (package names are
ASCII, so the extra unicode space classes never occur). -/
def isJsSpace (c : Char) : Bool :=
  c = ' ' || c = '\t' || c = '\n' || c = '\r' || c = '\x0b' || c = '\x0c'

/-- JS `String.prototype.trim`. -/
def trimString (s : String) : String :=
  String.mk (((s.data.dropWhile isJsSpace).reverse.dropWhile isJsSpace).reverse)

/-- JS `String.prototype.toLowerCase` (on the ASCII content that package
segments are made of). -/
def toLowerString (s : String) : String := String.mk (s.data.map Char.toLower)

/-- Embedding of `isWellKnownType` (protoParser.js lines 92-94). -/
def isWellKnownType (fieldType : String) : Bool :=
  fieldType.startsWith wellKnownTypeMarker

/-- Embedding of `generateEnumName` (protoParser.js lines 73-75). -/
def generateEnumName (enumName parentName : String) : String :=
  if parentName ≠ "" then parentName ++ "_" ++ enumName else enumName

/-- Embedding of `extractFieldType` (protoParser.js lines 78-89): throws
when the field has no type (for maps, `field.type` already holds the value
type).  The null-field throw of the source cannot fire here because
callers pass a concrete field. -/
def extractFieldType (field : PBField) (_parentTypeName : String) :
    Except String String :=
  if field.type = "" then
    .error ("Field " ++ (if field.name = "" then "unknown" else field.name) ++
      " has no type defined")
  else .ok field.type

/-- Embedding of `resolveTypeName` (protoParser.js lines 105-125), with
the parser's `knownTypes` set passed explicitly. -/
def resolveTypeName (knownTypes : List String)
    (fieldType parentTypeName : String) : Except String String :=
  if fieldType = "" then .error "Field type must be a non-empty string"
  else if knownTypes.contains fieldType then .ok fieldType
  else if parentTypeName ≠ "" then
    let nestedEnumName := parentTypeName ++ "_" ++ fieldType
    if knownTypes.contains nestedEnumName then .ok nestedEnumName
    else .ok fieldType
  else .ok fieldType

/-- Embedding of `isOptionalField` (protoParser.js lines 148-150). -/
def isOptionalField (field : PBField) : Bool :=
  field.rule == some "optional" || field.partOf

/-- Embedding of `getCardinality` (protoParser.js lines 127-145); `none`
models a null/undefined field argument. -/
def getCardinality (field : Option PBField) : String :=
  match field with
  | none => CONFIG_CARD_REQUIRED
  | some f =>
    if f.map || f.repeated then CONFIG_CARD_MULTIPLE
    else if isOptionalField f then CONFIG_CARD_OPTIONAL
    else CONFIG_CARD_REQUIRED

/-- Embedding of `getRelationshipType` (protoParser.js lines 152-165),
with the parser's `knownEnumTypes` set passed explicitly: the empty string
models a null/non-string argument. -/
def getRelationshipType (knownEnumTypes : List String)
    (resolvedType : String) : String :=
  if resolvedType = "" then CONFIG_COMPOSITION
  else if knownEnumTypes.contains resolvedType then CONFIG_COMPOSITION
  else CONFIG_AGGREGATION

/-- The two `Set` accumulators of `ProtoParser`. -/
structure TypeSets where
  knownTypes : List String
  knownEnumTypes : List String
deriving Repr, DecidableEq

/-- JS `Set.prototype.add`: appends only when absent (sets preserve
insertion order). -/
def addUnique (l : List String) (x : String) : List String :=
  if l.contains x then l else l ++ [x]

/-- Embedding of `collectTypes` together with its helpers
`collectMessageType` and `collectEnumType` (protoParser.js lines 12-70):
walks one entry list, adding message names, enum names (and the
parent-prefixed enum alias when a parent name is present), recursing into
nested messages with the message name as parent and into namespaces with
the unchanged parent; each entry's failure is wrapped with the offending
key.  Services carry no nested map here, so the namespace branch skips
them as in the source. -/
def collectEntries : PEntries → String → TypeSets → Except String TypeSets
  | .nil, _, st => .ok st
  | .cons key value rest, parentName, st =>
    let step : Except String TypeSets :=
      match value with
      | .msg name _ _ nested =>
          if name = "" then .error ("Type at key '" ++ key ++ "' has no name")
          else
            let st1 := { st with knownTypes := addUnique st.knownTypes name }
            if nested.isNil then .ok st1 else collectEntries nested name st1
      | .enm name _ =>
          if name = "" then .error ("Enum at key '" ++ key ++ "' has no name")
          else
            let prefixedName := generateEnumName name parentName
            let st1 : TypeSets :=
              { knownTypes := addUnique st.knownTypes name,
                knownEnumTypes := addUnique st.knownEnumTypes name }
            if parentName ≠ "" then
              .ok { knownTypes := addUnique st1.knownTypes prefixedName,
                    knownEnumTypes := addUnique st1.knownEnumTypes prefixedName }
            else .ok st1
      | .srv _ _ => .ok st
      | .ns nested =>
          if nested.isNil then .ok st else collectEntries nested parentName st
    match step with
    | .error e => .error ("Failed to collect types from '" ++ key ++ "': " ++ e)
    | .ok st' => collectEntries rest parentName st'

/-! ### Generator: shallow embedding of src/plantUMLGenerator.js -/

/-- The mutable generator state: `this.lines`, `this.relations` and the
dedup set `this.relationSet`. -/
structure GenState where
  lines : List String
  relations : List String
  relationSet : List String
deriving Repr, DecidableEq

/-- `this.lines.push(l)`. -/
def pushLine (st : GenState) (l : String) : GenState :=
  { st with lines := st.lines ++ [l] }

/-- Several consecutive `this.lines.push` calls. -/
def pushLines (st : GenState) (ls : List String) : GenState :=
  { st with lines := st.lines ++ ls }

/-- Embedding of `createRelationship` (plantUMLGenerator.js lines
669-684): resolve the type; if it is a known type, compose the edge
string from source, relationship kind, cardinality and target, and append
it to `relations` only when `relationSet` does not already hold it. -/
def createRelationship (kt ket : List String) (st : GenState)
    (field : PBField) (fieldType parentTypeName : String) :
    Except String GenState :=
  match resolveTypeName kt fieldType parentTypeName with
  | .error e => .error e
  | .ok resolvedType =>
    if kt.contains resolvedType then
      let cardinality := getCardinality (some field)
      let relationshipType := getRelationshipType ket resolvedType
      let relationshipString :=
        parentTypeName ++ " " ++ relationshipType ++ " " ++ cardinality ++ " " ++
          resolvedType
      if st.relationSet.contains relationshipString then .ok st
      else .ok { st with
        relationSet := st.relationSet ++ [relationshipString],
        relations := st.relations ++ [relationshipString] }
    else .ok st

/-- Embedding of `processMessageField` (plantUMLGenerator.js lines
609-636): extract the type, build the display type (map wrapper, repeated
marker, optional marker), push the camelCased field line, and create a
relationship unless the type is well-known. -/
def processMessageField (kt ket : List String) (st : GenState)
    (field : PBField) (parentTypeName : String) : Except String GenState := do
  let fieldType ← extractFieldType field parentTypeName
  let displayType := fieldType
  let displayType :=
    if field.map then
      let kt0 := field.keyType.getD ""
      "map<" ++ (if kt0 = "" then "string" else kt0) ++ ", " ++ fieldType ++ ">"
    else displayType
  let displayType :=
    if field.repeated && !field.map then displayType ++ " [ ]" else displayType
  let displayType :=
    if isOptionalField field then displayType ++ " ?" else displayType
  let fieldName := toCamelCase field.name
  let st := pushLine st ("  " ++ fieldName ++ " : " ++ displayType)
  if !(isWellKnownType fieldType) then
    createRelationship kt ket st field fieldType parentTypeName
  else pure st

/-- Embedding of `processOneofNotes` (plantUMLGenerator.js lines 643-659):
for each oneof group with more than one member field, push a three-line
note naming all members (camelCased, joined by `or`). -/
def processOneofNotes (st : GenState) (messageName : String)
    (oneofs : List POneof) : GenState :=
  oneofs.foldl (fun st o =>
    if 1 < o.fieldNames.length then
      pushLines st
        [ "note right of " ++ messageName,
          "  Only one of " ++
            String.intercalate " or " (o.fieldNames.map toCamelCase) ++
            " is set",
          "end note" ]
    else st) st

/-- Embedding of `processEnumType` (plantUMLGenerator.js lines 693-713):
pushes the enum block, skipping falsy value keys; the `parentName`
parameter is kept but unused, as in the source.  The values-object
validity check of the source always passes in this model (values are a
list). -/
def processEnumType (st : GenState) (name : String) (values : List String)
    (_parentName : String) : Except String GenState :=
  if name = "" then .error "Enum type must have a valid name"
  else
    let st := pushLine st ("enum " ++ name ++ " \x7b")
    let st := values.foldl (fun st v =>
      if v = "" then st else pushLine st ("  " ++ v)) st
    .ok (pushLine st "\x7d")

/-- Embedding of `processServiceType` (plantUMLGenerator.js lines
721-758): pushes the stereotype block with one line per method and adds
the two association edges per method through the shared dedup set.  The
methods-object validity check of the source always passes in this model
(methods are a list). -/
def processServiceType (st : GenState) (name : String)
    (methods : List PMethod) : Except String GenState := do
  if name = "" then throw "Service type must have a valid name"
  let st := pushLine st ("stereotype " ++ name ++ " \x7b")
  let st ← methods.foldlM (fun st m => do
    if m.name = "" then throw ("Invalid method in service " ++ name)
    let requestType := if m.requestType = "" then "Unknown" else m.requestType
    let responseType := if m.responseType = "" then "Unknown" else m.responseType
    let st := pushLine st ("  " ++ m.name ++ "(" ++ requestType ++ ") : " ++ responseType)
    let requestRelation := name ++ " " ++ CONFIG_ASSOCIATION ++ " " ++ requestType
    let responseRelation := name ++ " " ++ CONFIG_ASSOCIATION ++ " " ++ responseType
    let st :=
      if st.relationSet.contains requestRelation then st
      else { st with relationSet := st.relationSet ++ [requestRelation],
                     relations := st.relations ++ [requestRelation] }
    let st :=
      if st.relationSet.contains responseRelation then st
      else { st with relationSet := st.relationSet ++ [responseRelation],
                     relations := st.relations ++ [responseRelation] }
    pure st) st
  pure (pushLine st "\x7d")

/-- Whether a message's nested map contains an enum
(`Object.values(messageType.nested).some(v => v instanceof protobuf.Enum)`). -/
def containsEnum : PEntries → Bool
  | .nil => false
  | .cons _ v rest =>
      (match v with | .enm _ _ => true | _ => false) || containsEnum rest

mutual
/-- Embedding of `processMessageType` (plantUMLGenerator.js lines
559-601), dispatching on the node as the JS property accesses would: for a
message, emit the (optionally component-wrapped) object block with its
non-reserved fields, the oneof notes, and the nested namespace; an enum or
service node would emit a bare object block (its `fieldsArray`, `oneofs`
and `nested` properties are absent), and a plain namespace would fail the
name check — those nodes are never passed in by the callers, which
dispatch on `instanceof`. -/
def processMessageType (kt ket : List String) (st : GenState) :
    PValue → Except String GenState
  | .msg name fields oneofs nested => do
      if name = "" then throw "Message type must have a valid name"
      let hasNestedTypes := containsEnum nested
      let st :=
        if hasNestedTypes then
          pushLine st ("component \"" ++ name ++ " Types\" \x7b")
        else st
      let st := pushLine st ("object " ++ name ++ " \x7b")
      let st ← (fields.filter (fun f => !f.reserved)).foldlM (fun st field =>
        match processMessageField kt ket st field name with
        | .error e =>
            .error ("Failed to process field in " ++ name ++ ": " ++ e)
        | .ok st' => .ok st') st
      let st := pushLine st "\x7d"
      let st := processOneofNotes st name oneofs
      let st ← if !nested.isNil then processNamespace kt ket st nested ""
        else pure st
      pure (if hasNestedTypes then pushLine st "\x7d" else st)
  | .enm name _ => do
      if name = "" then throw "Message type must have a valid name"
      pure (pushLine (pushLine st ("object " ++ name ++ " \x7b")) "\x7d")
  | .srv name _ => do
      if name = "" then throw "Message type must have a valid name"
      pure (pushLine (pushLine st ("object " ++ name ++ " \x7b")) "\x7d")
  | .ns _ => throw "Message type must have a valid name"
/-- Embedding of `processNamespace` (plantUMLGenerator.js lines 530-551),
taking the ordered entry list of the namespace directly: dispatch each
entry on its kind (message, enum, service, or namespace with nested
content), wrapping any failure with the entry's key. -/
def processNamespace (kt ket : List String) (st : GenState) :
    PEntries → String → Except String GenState
  | .nil, _ => .ok st
  | .cons key value rest, parentName =>
    let step : Except String GenState :=
      match value with
      | .msg n f o e => processMessageType kt ket st (.msg n f o e)
      | .enm n v => processEnumType st n v parentName
      | .srv n m => processServiceType st n m
      | .ns nested =>
          if nested.isNil then .ok st
          else processNamespace kt ket st nested parentName
    match step with
    | .error e => .error ("Failed to process " ++ key ++ ": " ++ e)
    | .ok st' => processNamespace kt ket st' rest parentName
end

mutual
/-- One node's contribution to `collectAllContent` (plantUMLGenerator.js
lines 490-521): messages, top-level enums and services are collected;
namespaces are recursed into. -/
def collectAllContentV : PValue → List PValue × List PValue × List PValue
  | .msg n f o e => ([.msg n f o e], [], [])
  | .enm n v => ([], [.enm n v], [])
  | .srv n m => ([], [], [.srv n m])
  | .ns nested => if nested.isNil then ([], [], []) else collectAllContentE nested
/-- Embedding of `collectAllContent` over an entry list, preserving entry
order with nested namespaces' content spliced in place. -/
def collectAllContentE : PEntries → List PValue × List PValue × List PValue
  | .nil => ([], [], [])
  | .cons _ v rest =>
      let a := collectAllContentV v
      let b := collectAllContentE rest
      (a.1 ++ b.1, a.2.1 ++ b.2.1, a.2.2 ++ b.2.2)
end

/-- Embedding of `processNamespaceFlat` (plantUMLGenerator.js lines
465-482): collect all content, then process messages, enums (with empty
parent name), and services in that order. -/
def processNamespaceFlat (kt ket : List String) (st : GenState)
    (entries : PEntries) : Except String GenState := do
  let content := collectAllContentE entries
  let st ← content.1.foldlM (fun st m => processMessageType kt ket st m) st
  let st ← content.2.1.foldlM (fun st e =>
    processEnumType st (nameOf e) (enumValuesOf e) "") st
  let st ← content.2.2.foldlM (fun st s =>
    processServiceType st (nameOf s) (methodsOf s)) st
  pure st

/-- The `hasDirectContent` helper of `countContentAtLevels`
(plantUMLGenerator.js lines 315-322). -/
def hasDirectContent : PEntries → Bool
  | .nil => false
  | .cons _ v rest => isContentValue v || hasDirectContent rest

mutual
/-- The `traverse` helper of `countContentAtLevels` (plantUMLGenerator.js
lines 324-336) applied to one namespace node: count one level if the node
has direct content, then recurse into nested non-message nodes that have
nested content. -/
def countTraverseV : PValue → Nat
  | .msg _ _ _ nested =>
      (if hasDirectContent nested then 1 else 0) + countTraverseE nested
  | .ns nested =>
      (if hasDirectContent nested then 1 else 0) + countTraverseE nested
  | .enm _ _ => 0
  | .srv _ _ => 0
/-- The `traverse` recursion over the nested values of a namespace:
only values with a truthy `.nested` that are not messages are traversed. -/
def countTraverseE : PEntries → Nat
  | .nil => 0
  | .cons _ v rest =>
      (if hasNestedProp v && !isMsgValue v then countTraverseV v else 0) +
        countTraverseE rest
end

/-- Embedding of `countContentAtLevels` (plantUMLGenerator.js lines
312-340). -/
def countContentAtLevels (ns : PValue) : Nat := countTraverseV ns

mutual
/-- Embedding of `findContentNamespace` (plantUMLGenerator.js lines
429-457): return the node itself when it has no nested map or has direct
content; otherwise scan the nested values with a truthy `.nested`,
returning the first recursive result that differs from the value it was
computed from, and falling back to the node itself. -/
def findContentNamespace : PValue → PValue
  | .msg n f o nested =>
      if nested.isNil then .msg n f o nested
      else if hasDirectContent nested then .msg n f o nested
      else
        match findLoop nested with
        | some found => found
        | none => .msg n f o nested
  | .ns nested =>
      if nested.isNil then .ns nested
      else if hasDirectContent nested then .ns nested
      else
        match findLoop nested with
        | some found => found
        | none => .ns nested
  | v => v
/-- The entry loop of `findContentNamespace`, returning the first
recursive result that differs (by the JS `!==` identity test, which on
this immutable tree model is structural equality) from its source value. -/
def findLoop : PEntries → Option PValue
  | .nil => none
  | .cons _ value rest =>
      if hasNestedProp value then
        let found := findContentNamespace value
        if beqPValue found value then findLoop rest else some found
      else findLoop rest
end

/-- The meaningful-suffix vocabulary of `shouldUsePackageBlock`
(plantUMLGenerator.js line 358). -/
def meaningfulNamesWrap : List String :=
  ["api", "service", "event", "model", "dto", "proto", "message", "client", "server"]

/-- The (shorter) meaningful-suffix vocabulary of `getOptimalPackageName`
(plantUMLGenerator.js line 404). -/
def meaningfulNamesDisplay : List String :=
  ["api", "service", "event", "model", "dto", "proto", "message"]

/-- Embedding of `shouldUsePackageBlock` (plantUMLGenerator.js lines
350-382); the unused `targetNamespace` parameter of the source is
omitted. -/
def shouldUsePackageBlock (packageParts : List String)
    (contentLevels : Nat) : Bool :=
  if 1 < contentLevels then true
  else
    let lastPart := packageParts.getLastD ""
    if meaningfulNamesWrap.contains (toLowerString lastPart) then true
    else if 3 ≤ packageParts.length ∧ packageParts.length ≤ 6 then true
    else if packageParts.length ≤ 2 then false
    else if 8 < packageParts.length then false
    else true

/-- Embedding of `getOptimalPackageName` (plantUMLGenerator.js lines
391-420). -/
def getOptimalPackageName (packageParts : List String)
    (shouldUsePackage : Bool) : String :=
  if !shouldUsePackage then ""
  else if packageParts.length ≤ 6 then String.intercalate "." packageParts
  else
    let lastPart := packageParts.getLastD ""
    if meaningfulNamesDisplay.contains (toLowerString lastPart) then
      String.intercalate "." (packageParts.drop (packageParts.length - 4))
    else if 8 < packageParts.length then
      packageParts.headD "" ++ "..." ++
        String.intercalate "." (packageParts.drop (packageParts.length - 3))
    else String.intercalate "." packageParts

/-- The result of `analyzePackageStructure`. -/
structure PackageInfo where
  shouldUsePackage : Bool
  displayName : String
  targetNamespace : PValue

/-- Embedding of `analyzePackageStructure` (plantUMLGenerator.js lines
286-304). -/
def analyzePackageStructure (root : PValue) (packageName : String) :
    PackageInfo :=
  let targetNamespace := findContentNamespace root
  let packageParts := splitDot packageName
  let contentLevels := countContentAtLevels root
  let shouldUsePackage := shouldUsePackageBlock packageParts contentLevels
  { shouldUsePackage,
    displayName := getOptimalPackageName packageParts shouldUsePackage,
    targetNamespace }

/-- The fixed header lines pushed at the start of `generateFromRoot`. -/
def headerLines : List String :=
  ["@startuml", "!pragma useIntermediatePackages false",
   "skinparam componentStyle rectangle"]

/-- Embedding of `generateFromRoot` (plantUMLGenerator.js lines 237-276)
at the line-list level (`this.lines` with the relations and `@enduml`
appended; the source joins the result with newlines).  An empty
`packageName` models the absent/null package of the source. -/
def genLines (kt ket : List String) (root : PValue) (packageName : String) :
    Except String (List String) :=
  let st0 : GenState := { lines := headerLines, relations := [], relationSet := [] }
  let processed : Except String GenState :=
    if packageName ≠ "" ∧ trimString packageName ≠ "" then
      let packageInfo := analyzePackageStructure root packageName
      if packageInfo.shouldUsePackage then do
        let st := pushLine st0 ("package \"" ++ packageInfo.displayName ++ "\" \x7b")
        let st ← processNamespaceFlat kt ket st (nestedOf packageInfo.targetNamespace)
        pure (pushLine st "\x7d")
      else processNamespace kt ket st0 (nestedOf packageInfo.targetNamespace) ""
    else processNamespace kt ket st0 (nestedOf root) ""
  match processed with
  | .error e => .error ("Failed to process protobuf namespace: " ++ e)
  | .ok st => .ok (st.lines ++ st.relations ++ ["@enduml"])

/-- The newline-joined diagram text of `generateFromRoot`. -/
def generateFromRoot (kt ket : List String) (root : PValue)
    (packageName : String) : Except String String :=
  (genLines kt ket root packageName).map (String.intercalate "\n")

/-- The unwrapped emission: exactly the no-package-block branch of
`generateFromRoot` (headers, then `processNamespace` on the located
content namespace, then relations and the end marker) — by construction
it never pushes a `package "..."` grouping line. -/
def genLinesFlattened (kt ket : List String) (root : PValue) :
    Except String (List String) :=
  let st0 : GenState := { lines := headerLines, relations := [], relationSet := [] }
  match processNamespace kt ket st0 (nestedOf (findContentNamespace root)) "" with
  | .error e => .error ("Failed to process protobuf namespace: " ++ e)
  | .ok st => .ok (st.lines ++ st.relations ++ ["@enduml"])

/-- The `generatePlantUMLCode` pipeline after the external protobufjs text
parse (index.js lines 83-93 and protoParser.js lines 168-201): collect the
known type/enum sets from the tree, then generate the diagram lines from
the root with those sets. -/
def generateFromTree (root : PValue) (packageName : String) :
    Except String (List String) := do
  let ts ← collectEntries (nestedOf root) "" ⟨[], []⟩
  genLines ts.knownTypes ts.knownEnumTypes root packageName

/-! ### Spec-side helpers and concrete example data for the claims -/

/-- The three-line exclusivity annotation of one oneof group (claim C9). -/
def oneofNoteBlock (messageName : String) (o : POneof) : List String :=
  [ "note right of " ++ messageName,
    "  Only one of " ++
      String.intercalate " or " (o.fieldNames.map toCamelCase) ++
      " is set",
    "end note" ]

/-- Spec-side description of the oneof annotations (claim C9): one
three-line note per oneof group with more than one member, naming all the
members camelCased and joined by `or`. -/
def oneofNotesSpec (messageName : String) (oneofs : List POneof) : List String :=
  ((oneofs.filter fun o => 1 < o.fieldNames.length).map
    (oneofNoteBlock messageName)).flatten

/-- The candidate edge string of one `createRelationship` call (claim C5):
`none` when the field type is empty (the call would throw) or when the
resolved type is not a known type (no edge is created). -/
def candidateEdge (kt ket : List String) :
    PBField × String × String → Option String
  | (field, fieldType, parentTypeName) =>
    match resolveTypeName kt fieldType parentTypeName with
    | .error _ => none
    | .ok resolvedType =>
      if kt.contains resolvedType then
        some (parentTypeName ++ " " ++ getRelationshipType ket resolvedType ++
          " " ++ getCardinality (some field) ++ " " ++ resolvedType)
      else none

/-- A sequence of `createRelationship` calls, as performed one per emitted
field over a single diagram generation (claim C5). -/
def foldCreateRelationship (kt ket : List String) :
    GenState → List (PBField × String × String) → Except String GenState
  | st, [] => .ok st
  | st, (field, fieldType, parentTypeName) :: rest =>
    match createRelationship kt ket st field fieldType parentTypeName with
    | .error e => .error e
    | .ok st' => foldCreateRelationship kt ket st' rest

/-- Field-relationship requests for the C5 witness: two references from
`User` to `Address` with different cardinalities plus one duplicate. -/
def c5Reqs : List (PBField × String × String) :=
  [ ({ name := "home", type := "Address" }, "Address", "User"),
    ({ name := "offices", type := "Address", repeated := true }, "Address", "User"),
    ({ name := "billing", type := "Address" }, "Address", "User") ]

/-- The generator state reached by the C5 witness run. -/
def c5FinalState : GenState :=
  { lines := [],
    relations := ["User --o \"1\" Address", "User --o \"0..*\" Address"],
    relationSet := ["User --o \"1\" Address", "User --o \"0..*\" Address"] }

/-- The schema of claim C1's example: `message User { repeated Address
addresses = 1; }` next to `message Address { string street = 1; }`. -/
def c1ExampleTree : PValue :=
  .ns (.cons "User"
        (.msg "User" [{ name := "addresses", type := "Address", repeated := true }] [] .nil)
      (.cons "Address"
        (.msg "Address" [{ name := "street", type := "string" }] [] .nil)
      .nil))

/-- The diagram lines the library emits for `c1ExampleTree`. -/
def c1ExampleLines : List String :=
  ["@startuml", "!pragma useIntermediatePackages false",
   "skinparam componentStyle rectangle", "object User \x7b",
   "  addresses : Address [ ]", "\x7d", "object Address \x7b",
   "  street : string", "\x7d", "User --o \"0..*\" Address", "@enduml"]

/-- A schema with package `a` whose tree has content at two namespace
levels (a message directly under `a` and another inside `a.b`), used as
counterexample to claim C7 as stated. -/
def c7CexTree : PValue :=
  .ns (.cons "a"
        (.ns (.cons "M" (.msg "M" [] [] .nil)
             (.cons "b" (.ns (.cons "N" (.msg "N" [] [] .nil) .nil))
             .nil)))
      .nil)

/-- The diagram lines the library emits for `c7CexTree` with package
`a` — a `package "a"` grouping wrapper is present. -/
def c7CexLines : List String :=
  ["@startuml", "!pragma useIntermediatePackages false",
   "skinparam componentStyle rectangle", "package \"a\" \x7b",
   "object M \x7b", "\x7d", "object N \x7b", "\x7d", "\x7d", "@enduml"]

/-- The schema of claim C7's example: single-segment package `a` with one
message `User`. -/
def c7ExTree : PValue :=
  .ns (.cons "a"
        (.ns (.cons "User"
          (.msg "User" [{ name := "name", type := "string" }] [] .nil) .nil))
      .nil)

/-- The diagram lines the library emits for `c7ExTree` with package `a`:
the message with no grouping wrapper at all. -/
def c7ExLines : List String :=
  ["@startuml", "!pragma useIntermediatePackages false",
   "skinparam componentStyle rectangle", "object User \x7b",
   "  name : string", "\x7d", "@enduml"]

/-! ## Theorems -/

/-! ### Bitwise arithmetic bridge lemmas (bytes are < 256) -/

theorem shiftRight2_eq_div : ∀ b < 256, b >>> 2 = b / 4 := by decide

theorem shiftRight4_eq_div : ∀ b < 256, b >>> 4 = b / 16 := by decide

theorem shiftRight6_eq_div : ∀ b < 256, b >>> 6 = b / 64 := by decide

theorem land3_eq_mod : ∀ b < 256, b &&& 3 = b % 4 := by decide

theorem land15_eq_mod : ∀ b < 256, b &&& 15 = b % 16 := by decide

theorem land63_eq_mod : ∀ b < 256, b &&& 63 = b % 64 := by decide

theorem land63_id : ∀ w < 64, w &&& 63 = w := by decide

theorem lor_shl4 : ∀ x < 4, ∀ y < 16, (x <<< 4) ||| y = x * 16 + y := by decide

theorem lor_shl2 : ∀ x < 16, ∀ y < 4, (x <<< 2) ||| y = x * 4 + y := by decide

theorem encode6bit_eq_alphabetSpec : ∀ w < 64, encode6bit w = alphabetSpec w := by decide

/-- On byte inputs, one group of the source encoder produces exactly the
four characters the spec describes. -/
theorem append3bytes_spec (b1 b2 b3 : Nat)
    (h1 : b1 < 256) (h2 : b2 < 256) (h3 : b3 < 256) :
    append3bytes b1 b2 b3 = specGroupChars (b1, b2, b3) := by
  have e1 : (b1 >>> 2) &&& 0x3f = b1 / 4 := by
    rw [shiftRight2_eq_div b1 h1]
    exact land63_id _ (by omega)
  have e2 : (((b1 &&& 0x3) <<< 4) ||| (b2 >>> 4)) &&& 0x3f = b1 % 4 * 16 + b2 / 16 := by
    rw [land3_eq_mod b1 h1, shiftRight4_eq_div b2 h2,
      lor_shl4 (b1 % 4) (by omega) (b2 / 16) (by omega)]
    exact land63_id _ (by omega)
  have e3 : (((b2 &&& 0xf) <<< 2) ||| (b3 >>> 6)) &&& 0x3f = b2 % 16 * 4 + b3 / 64 := by
    rw [land15_eq_mod b2 h2, shiftRight6_eq_div b3 h3,
      lor_shl2 (b2 % 16) (by omega) (b3 / 64) (by omega)]
    exact land63_id _ (by omega)
  have e4 : (b3 &&& 0x3f) &&& 0x3f = b3 % 64 := by
    rw [land63_eq_mod b3 h3]
    exact land63_id _ (by omega)
  simp only [append3bytes, specGroupChars, e1, e2, e3, e4]
  rw [encode6bit_eq_alphabetSpec (b1 / 4) (by omega),
    encode6bit_eq_alphabetSpec (b1 % 4 * 16 + b2 / 16) (by omega),
    encode6bit_eq_alphabetSpec (b2 % 16 * 4 + b3 / 64) (by omega),
    encode6bit_eq_alphabetSpec (b3 % 64) (by omega)]

/-- C8: for every compressed byte stream, the encoder consumes it 3 bytes
at a time (zero-padding the final group when fewer than 3 bytes remain),
each group expanding to exactly 4 output characters via the bit split
(first 6 bits of byte1; last 2 bits of byte1 plus first 4 bits of byte2;
last 4 bits of byte2 plus first 2 bits of byte3; last 6 bits of byte3),
each 6-bit value mapped through the fixed alphabet 0-9 to digits, 10-35 to
uppercase letters, 36-61 to lowercase letters, 62 to `-`, 63 to `_`. -/
theorem encode64_eq_encode64Spec (bytes : List Nat) (h : ∀ b ∈ bytes, b < 256) :
    encode64 bytes = encode64Spec bytes := by
  induction bytes using encode64.induct with
  | case1 => rfl
  | case2 b1 =>
      have h1 : b1 < 256 := h b1 (by simp)
      simp [encode64, encode64Spec, chunk3,
        append3bytes_spec b1 0 0 h1 (by omega) (by omega)]
  | case3 b1 b2 =>
      have h1 : b1 < 256 := h b1 (by simp)
      have h2 : b2 < 256 := h b2 (by simp)
      simp [encode64, encode64Spec, chunk3,
        append3bytes_spec b1 b2 0 h1 h2 (by omega)]
  | case4 b1 b2 b3 rest ih =>
      have h1 : b1 < 256 := h b1 (by simp)
      have h2 : b2 < 256 := h b2 (by simp)
      have h3 : b3 < 256 := h b3 (by simp)
      have hrest : ∀ b ∈ rest, b < 256 := fun b hb => h b (by simp [hb])
      simp [encode64, encode64Spec, chunk3,
        append3bytes_spec b1 b2 b3 h1 h2 h3, ih hrest, encode64Spec]

/-- Witness for C8 at the concrete byte stream `[72, 105]` (two bytes, so
the final group is padded with one zero byte and yields 4 characters). -/
theorem encode64_eq_encode64Spec_witness :
    encode64 [72, 105] = encode64Spec [72, 105] ∧
    encode64 [72, 105] = ['I', '6', 'a', '0'] :=
  ⟨encode64_eq_encode64Spec [72, 105] (by decide), by decide⟩

/-! ### Claim C10: the output alphabet is URL-safe, the error branch is dead -/

theorem encode6bit_lt64_urlSafe :
    ∀ w < 64, encode6bit w ∈ urlSafeChars ∧ encode6bit w ≠ '?' := by decide

/-- Every character produced by a masked `encode6bit` call is in the
URL-safe alphabet, because the `& 0x3f` mask bounds its argument by 63. -/
theorem encode6bit_masked_urlSafe (x : Nat) :
    encode6bit (x &&& 0x3f) ∈ urlSafeChars ∧ encode6bit (x &&& 0x3f) ≠ '?' :=
  encode6bit_lt64_urlSafe (x &&& 0x3f)
    (Nat.and_lt_two_pow x (by norm_num : (0x3f : Nat) < 2 ^ 6))

/-- C10: every character of the encoder's output belongs to the
64-character URL-safe alphabet (digits, letters, `-`, `_`); the `'?'`
error branch of `encode6bit` is unreachable because `append3bytes` masks
every 6-bit value with `0x3f`, so for all byte inputs `encode64` never
emits `'?'`. -/
theorem encode64_output_urlSafe (bytes : List Nat) (c : Char)
    (hc : c ∈ encode64 bytes) : c ∈ urlSafeChars ∧ c ≠ '?' := by
  induction bytes using encode64.induct with
  | case1 => simp [encode64] at hc
  | case2 b1 =>
      simp only [encode64, append3bytes, List.mem_cons, List.not_mem_nil,
        or_false] at hc
      rcases hc with h | h | h | h <;> subst h <;>
        exact encode6bit_masked_urlSafe _
  | case3 b1 b2 =>
      simp only [encode64, append3bytes, List.mem_cons, List.not_mem_nil,
        or_false] at hc
      rcases hc with h | h | h | h <;> subst h <;>
        exact encode6bit_masked_urlSafe _
  | case4 b1 b2 b3 rest ih =>
      simp only [encode64, append3bytes, List.mem_append, List.mem_cons,
        List.not_mem_nil, or_false] at hc
      rcases hc with (h | h | h | h) | h
      · subst h; exact encode6bit_masked_urlSafe _
      · subst h; exact encode6bit_masked_urlSafe _
      · subst h; exact encode6bit_masked_urlSafe _
      · subst h; exact encode6bit_masked_urlSafe _
      · exact ih h

/-- Witness for C10 at the byte stream `[0]`: its encoding is `0000` and
the character `'0'` is in the URL-safe alphabet. -/
theorem encode64_output_urlSafe_witness :
    '0' ∈ urlSafeChars ∧ '0' ≠ '?' :=
  encode64_output_urlSafe [0] '0' (by decide)

/-! ### Claim C4: the encoding is lossless and invertible -/

theorem decode6bit_alphabetSpec : ∀ v < 64, decode6bit (alphabetSpec v) = v := by decide

/-- Decoding one encoded group recovers the three bytes it came from. -/
theorem decode64_append3bytes (b1 b2 b3 : Nat)
    (h1 : b1 < 256) (h2 : b2 < 256) (h3 : b3 < 256) (rest : List Char) :
    decode64 (append3bytes b1 b2 b3 ++ rest) = b1 :: b2 :: b3 :: decode64 rest := by
  rw [append3bytes_spec b1 b2 b3 h1 h2 h3]
  simp only [specGroupChars, List.cons_append, List.nil_append, decode64,
    decode6bit_alphabetSpec (b1 / 4) (by omega),
    decode6bit_alphabetSpec (b1 % 4 * 16 + b2 / 16) (by omega),
    decode6bit_alphabetSpec (b2 % 16 * 4 + b3 / 64) (by omega),
    decode6bit_alphabetSpec (b3 % 64) (by omega)]
  refine congrArg₂ _ (by omega) (congrArg₂ _ (by omega) (congrArg₂ _ (by omega) rfl))

/-- Applying the inverse of the 64-character transform to the encoder's
output recovers the input byte stream, zero-padded to a multiple of 3. -/
theorem decode64_encode64 (bytes : List Nat) (h : ∀ b ∈ bytes, b < 256) :
    decode64 (encode64 bytes) =
      bytes ++ List.replicate ((3 - bytes.length % 3) % 3) 0 := by
  induction bytes using encode64.induct with
  | case1 => rfl
  | case2 b1 =>
      have h1 : b1 < 256 := h b1 (by simp)
      have := decode64_append3bytes b1 0 0 h1 (by omega) (by omega) []
      simpa [encode64] using this
  | case3 b1 b2 =>
      have h1 : b1 < 256 := h b1 (by simp)
      have h2 : b2 < 256 := h b2 (by simp)
      have := decode64_append3bytes b1 b2 0 h1 h2 (by omega) []
      simpa [encode64] using this
  | case4 b1 b2 b3 rest ih =>
      have h1 : b1 < 256 := h b1 (by simp)
      have h2 : b2 < 256 := h b2 (by simp)
      have h3 : b3 < 256 := h b3 (by simp)
      have hrest : ∀ b ∈ rest, b < 256 := fun b hb => h b (by simp [hb])
      rw [encode64, decode64_append3bytes b1 b2 b3 h1 h2 h3, ih hrest]
      have hlen : ((3 : Nat) - (b1 :: b2 :: b3 :: rest).length % 3) % 3
          = (3 - rest.length % 3) % 3 := by
        simp only [List.length_cons]
        omega
      rw [hlen]
      simp [List.cons_append]

/-- Every UTF-8 byte of any string is below 256. -/
theorem utf8Bytes_lt (s : String) : ∀ b ∈ utf8Bytes s, b < 256 := by
  intro b hb
  simp only [utf8Bytes, List.mem_map] at hb
  obtain ⟨u, _, rfl⟩ := hb
  exact u.toNat_lt

/-- C4: for every diagram text (empty included), running the encoder with
a lossless byte-oriented compression, then applying the inverse of the
64-character transform to the output and decompressing, recovers the
original diagram text exactly.  Compression is the external pako library,
so it is modelled abstractly: `deflateRaw` produces the compressed bytes
and `inflateRaw` inverts it; since the transform zero-pads the final
group, the decompressor is assumed (as raw-deflate decoding guarantees)
to be insensitive to trailing zero bytes after the compressed stream. -/
theorem encoding_roundtrip (deflateRaw : List Nat → List Nat)
    (inflateRaw : List Nat → Option String) (text : String)
    (hbytes : ∀ b ∈ deflateRaw (utf8Bytes text), b < 256)
    (hinv : ∀ k, inflateRaw (deflateRaw (utf8Bytes text) ++ List.replicate k 0) =
      some text) :
    encode (fun bs => .ok (deflateRaw bs)) text =
      .ok (String.mk (encode64 (deflateRaw (utf8Bytes text)))) ∧
    inflateRaw (decode64 (encode64 (deflateRaw (utf8Bytes text)))) = some text := by
  refine ⟨rfl, ?_⟩
  rw [decode64_encode64 _ hbytes, hinv]

/-- Witness for C4 at the concrete diagram text `"@"`. -/
theorem encoding_roundtrip_witness :
    encode (fun bs => .ok (idDeflate bs)) "@" =
      .ok (String.mk (encode64 (idDeflate (utf8Bytes "@")))) ∧
    constInflate (decode64 (encode64 (idDeflate (utf8Bytes "@")))) = some "@" :=
  encoding_roundtrip idDeflate constInflate "@" (utf8Bytes_lt "@")
    (fun _ => rfl)

/-! ### Claim C2: behaviour of the two encoders when compression throws -/

/-- C2 (counterexample): the JS encoder on the library's main generation
path does not fail when compression throws — with an always-throwing
`deflateRaw` it catches the error and returns a hex-encoded token tagged
`"hex"`, and the generated URL carries the `~h` marker; the generation
call succeeds with differently-encoded output, so compression failure is
not fatal for it. -/
theorem compression_fallback_counterexample :
    failingDeflate (utf8Bytes "@startuml") = Except.error "boom" ∧
    compressAndEncodeJS failingDeflate "@startuml" =
      { data := "407374617274756d6c", type := "hex" } ∧
    (compressAndEncodeJS failingDeflate "@startuml").type ≠ "deflate" ∧
    generatePlantUMLImageUrl failingDeflate "@startuml" "https://server/" =
      "https://server/~h407374617274756d6c" :=
  ⟨rfl, by decide, by decide, by decide⟩

/-- C2 (amended): when the compression step throws, the TypeScript
encoder (imageEncoder/plantumlEncoder.ts) fails the whole call with a
descriptive wrapped error naming the compression failure and never
produces an output token; the JS encoder variant used by the main
generation call (src/plantumlEncoder.js) instead catches the throw and
falls back to a hex encoding of the UTF-8 bytes, returning a result
tagged `"hex"` whose URL is prefixed with the `~h` marker — a complete,
decodable encoding rather than truncated output, but not a failure. -/
theorem compression_failure_two_encoders
    (deflateRaw : List Nat → Except String (List Nat)) (text e baseUrl : String)
    (hfail : deflateRaw (utf8Bytes text) = .error e) :
    (encode deflateRaw text = .error ("Pako compression failed: \" " ++ e) ∧
      ∀ token, encode deflateRaw text ≠ .ok token) ∧
    (compressAndEncodeJS deflateRaw text =
        { data := convertToHex (utf8Bytes text), type := "hex" } ∧
      generatePlantUMLImageUrl deflateRaw text baseUrl =
        baseUrl ++ "~h" ++ convertToHex (utf8Bytes text)) := by
  have herr : encode deflateRaw text = .error ("Pako compression failed: \" " ++ e) := by
    unfold encode compressAndEncode
    rw [hfail]
  have hjs : compressAndEncodeJS deflateRaw text =
      { data := convertToHex (utf8Bytes text), type := "hex" } := by
    simp only [compressAndEncodeJS, hfail]
  refine ⟨⟨herr, fun token h => by rw [herr] at h; cases h⟩, hjs, ?_⟩
  simp [generatePlantUMLImageUrl, hjs]

/-- Witness for C2 at the concrete diagram text `"@startuml"` with an
always-throwing compression. -/
theorem compression_failure_two_encoders_witness :
    encode failingDeflate "@startuml" =
      .error ("Pako compression failed: \" " ++ "boom") ∧
    compressAndEncodeJS failingDeflate "@startuml" =
      { data := convertToHex (utf8Bytes "@startuml"), type := "hex" } ∧
    generatePlantUMLImageUrl failingDeflate "@startuml" "https://server/" =
      "https://server/" ++ "~h" ++ convertToHex (utf8Bytes "@startuml") := by
  have h := compression_failure_two_encoders failingDeflate "@startuml" "boom"
    "https://server/" rfl
  exact ⟨h.1.1, h.2.1, h.2.2⟩

/-! ### Claim C6: cardinality determination -/

/-- C6: `getCardinality` returns MULTIPLE exactly when the field is a map
or repeated; otherwise OPTIONAL exactly when the field is optional-marked
or a member of a oneof group; otherwise REQUIRED; and REQUIRED when the
field argument is absent. -/
theorem getCardinality_spec :
    getCardinality none = CONFIG_CARD_REQUIRED ∧
    ∀ f : PBField,
      ((getCardinality (some f) = CONFIG_CARD_MULTIPLE) ↔
        (f.map = true ∨ f.repeated = true)) ∧
      ((getCardinality (some f) = CONFIG_CARD_OPTIONAL) ↔
        (¬(f.map = true ∨ f.repeated = true) ∧
          (f.rule = some "optional" ∨ f.partOf = true))) ∧
      ((getCardinality (some f) = CONFIG_CARD_REQUIRED) ↔
        (¬(f.map = true ∨ f.repeated = true) ∧
          ¬(f.rule = some "optional" ∨ f.partOf = true))) := by
  refine ⟨rfl, fun f => ?_⟩
  rcases f with ⟨n, t, k, fmap, frep, rule, po, rv⟩
  cases fmap <;> cases frep <;> cases po <;>
    by_cases hr : rule = some "optional" <;>
      simp_all [getCardinality, isOptionalField, CONFIG_CARD_MULTIPLE,
        CONFIG_CARD_OPTIONAL, CONFIG_CARD_REQUIRED]

/-! ### Claim C3: snake_case to camelCase conversion -/

theorem char_isLower_iff (c : Char) :
    (c.isLower = true) ↔ (97 ≤ c.toNat ∧ c.toNat ≤ 122) := by
  simp [Char.isLower, Char.toNat, UInt32.le_def, BitVec.le_def]
  rfl

theorem char_toUpper_lower (c : Char) (h : 97 ≤ c.toNat ∧ c.toNat ≤ 122) :
    c.toUpper = Char.ofNat (c.toNat - 32) := by
  unfold Char.toUpper
  rw [if_pos h]

theorem camelChars_eq_spec (l : List Char) : camelChars l = camelSpecChars l := by
  induction l using camelChars.induct with
  | case1 => rfl
  | case2 c rest hlow ih =>
      have hnat := (char_isLower_iff c).mp hlow
      rw [camelChars, camelSpecChars, if_pos hlow, if_pos hnat,
        char_toUpper_lower c hnat, ih]
  | case3 c rest hlow ih =>
      have hnat : ¬(97 ≤ c.toNat ∧ c.toNat ≤ 122) :=
        fun h => hlow ((char_isLower_iff c).mpr h)
      rw [camelChars, camelSpecChars, if_neg (by simpa using hlow), if_neg hnat, ih]
  | case4 c rest hne ih =>
      have e1 : camelChars (c :: rest) = c :: camelChars rest := by
        rw [camelChars]
        exact hne
      have e2 : camelSpecChars (c :: rest) = c :: camelSpecChars rest := by
        rw [camelSpecChars]
        exact hne
      rw [e1, e2, ih]

theorem camelChars_no_underscore (l : List Char) (h : '_' ∉ l) :
    camelChars l = l := by
  induction l using camelChars.induct with
  | case1 => rfl
  | case2 c rest hlow ih => exact absurd (by simp) (fun hm => h hm)
  | case3 c rest hlow ih => exact absurd (by simp) (fun hm => h hm)
  | case4 c rest hne ih =>
      have e1 : camelChars (c :: rest) = c :: camelChars rest := by
        rw [camelChars]
        exact hne
      have hrest : '_' ∉ rest := fun hm => h (List.mem_cons_of_mem c hm)
      rw [e1, ih hrest]

/-- C3 (amended): the emitted field name conversion uppercases each ASCII
lowercase letter that immediately follows an underscore and removes that
underscore; an underscore not followed by an ASCII lowercase letter is
left unchanged; and the conversion is a no-op on names with no underscore
(already-camelCase or single-word names). -/
theorem toCamelCase_amended (s : String) :
    toCamelCase s = camelSpec s ∧ ('_' ∉ s.data → toCamelCase s = s) := by
  refine ⟨?_, fun h => ?_⟩
  · unfold toCamelCase camelSpec
    rw [camelChars_eq_spec]
  · unfold toCamelCase
    refine String.ext ?_
    show camelChars s.data = s.data
    exact camelChars_no_underscore s.data h

/-- Witness for C3 at the concrete names `"userName"` (no underscore,
no-op) and `"first_name"` (converted to `"firstName"`). -/
theorem toCamelCase_amended_witness :
    toCamelCase "userName" = camelSpec "userName" ∧
    toCamelCase "userName" = "userName" ∧
    toCamelCase "first_name" = "firstName" :=
  ⟨(toCamelCase_amended "userName").1,
   (toCamelCase_amended "userName").2 (by decide), by decide⟩

/-- C3 (counterexample): the claim says the underscores are removed and
the first letter after each underscore uppercased for every field name,
but an underscore followed by an uppercase letter or a digit is left in
place: `user_Id` stays `user_Id` (not `userId`) and `config_2` stays
`config_2` (not `config2`). -/
theorem toCamelCase_counterexample :
    toCamelCase "user_Id" = "user_Id" ∧ "user_Id" ≠ "userId" ∧
    toCamelCase "config_2" = "config_2" ∧ "config_2" ≠ "config2" := by
  decide

/-! ### Claim C9: oneof exclusivity annotations -/

theorem noteHeader_ne_endNote (name : String) :
    ("note right of " ++ name) ≠ "end note" := by
  intro h
  have hdata : ("note right of " ++ name).data = "end note".data :=
    congrArg String.data h
  rw [String.data_append] at hdata
  have h1 : "note right of ".data =
      ['n', 'o', 't', 'e', ' ', 'r', 'i', 'g', 'h', 't', ' ', 'o', 'f', ' '] := rfl
  have h2 : "end note".data = ['e', 'n', 'd', ' ', 'n', 'o', 't', 'e'] := rfl
  rw [h1, h2] at hdata
  simp at hdata

theorem noteBody_ne_endNote (body : String) :
    ("  Only one of " ++ body ++ " is set") ≠ "end note" := by
  intro h
  have hdata : ("  Only one of " ++ body ++ " is set").data = "end note".data :=
    congrArg String.data h
  rw [String.data_append, String.data_append] at hdata
  have h1 : "  Only one of ".data =
      [' ', ' ', 'O', 'n', 'l', 'y', ' ', 'o', 'n', 'e', ' ', 'o', 'f', ' '] := rfl
  have h2 : "end note".data = ['e', 'n', 'd', ' ', 'n', 'o', 't', 'e'] := rfl
  rw [h1, h2] at hdata
  simp at hdata

theorem count_noteBlocks (name : String) (l : List POneof) :
    ((l.map (oneofNoteBlock name)).flatten).count "end note" = l.length := by
  induction l with
  | nil => rfl
  | cons o rest ih =>
      rw [List.map_cons, List.flatten_cons, List.count_append, ih]
      have hblock : (oneofNoteBlock name o).count "end note" = 1 := by
        simp [oneofNoteBlock, List.count_cons, noteHeader_ne_endNote name,
          noteBody_ne_endNote
            (String.intercalate " or " (o.fieldNames.map toCamelCase))]
      rw [hblock, List.length_cons]
      omega

theorem oneofNotesSpec_count (name : String) (oneofs : List POneof) :
    (oneofNotesSpec name oneofs).count "end note" =
      (oneofs.filter fun o => 1 < o.fieldNames.length).length := by
  unfold oneofNotesSpec
  rw [count_noteBlocks]

theorem processOneofNotes_cons (st : GenState) (name : String) (o : POneof)
    (rest : List POneof) :
    processOneofNotes st name (o :: rest) =
      processOneofNotes
        (if 1 < o.fieldNames.length then pushLines st (oneofNoteBlock name o)
         else st) name rest := rfl

theorem processOneofNotes_lines (oneofs : List POneof) :
    ∀ (st : GenState) (name : String),
      processOneofNotes st name oneofs =
        { st with lines := st.lines ++ oneofNotesSpec name oneofs } := by
  induction oneofs with
  | nil => intro st name; simp [processOneofNotes, oneofNotesSpec]
  | cons o rest ih =>
      intro st name
      rw [processOneofNotes_cons]
      by_cases h1 : 1 < o.fieldNames.length
      · rw [if_pos h1, ih]
        simp [pushLines, oneofNotesSpec, List.filter_cons, h1,
          List.append_assoc]
      · rw [if_neg h1, ih]
        simp [oneofNotesSpec, List.filter_cons, h1]

/-- C9: for every oneof group declared on a message, a group with at most
one member field produces no exclusivity annotation, and a group with two
or more member fields produces exactly one three-line annotation (counted
by its unique `end note` line) naming all of the group's member fields
joined by `or`; the rest of the generator state is untouched. -/
theorem processOneofNotes_spec (st : GenState) (messageName : String)
    (oneofs : List POneof) :
    processOneofNotes st messageName oneofs =
      { st with lines := st.lines ++ oneofNotesSpec messageName oneofs } ∧
    (oneofNotesSpec messageName oneofs).count "end note" =
      (oneofs.filter fun o => 1 < o.fieldNames.length).length :=
  ⟨processOneofNotes_lines oneofs st messageName,
   oneofNotesSpec_count messageName oneofs⟩

/-! ### Claim C5: relationship edge deduplication -/

theorem foldCreate_invariant (kt ket : List String) :
    ∀ (reqs : List (PBField × String × String)) (st st' : GenState),
      st.relationSet = st.relations →
      foldCreateRelationship kt ket st reqs = .ok st' →
      st'.relationSet = st'.relations ∧
      (∃ added, st'.relations = st.relations ++ added ∧
        added.Sublist (reqs.filterMap (candidateEdge kt ket))) ∧
      (∀ e, e ∈ st'.relations ↔
        e ∈ st.relations ∨ e ∈ reqs.filterMap (candidateEdge kt ket)) ∧
      (st.relations.Nodup → st'.relations.Nodup) := by
  intro reqs
  induction reqs with
  | nil =>
      intro st st' hinv hfold
      simp only [foldCreateRelationship] at hfold
      cases hfold
      refine ⟨hinv, ⟨[], by simp, List.nil_sublist _⟩, by simp, fun h => h⟩
  | cons req rest ih =>
      rcases req with ⟨field, fieldType, parentTypeName⟩
      intro st st' hinv hfold
      cases hcr : createRelationship kt ket st field fieldType parentTypeName with
      | error e => simp [foldCreateRelationship, hcr] at hfold
      | ok st1 =>
          simp only [foldCreateRelationship, hcr] at hfold
          cases hres : resolveTypeName kt fieldType parentTypeName with
          | error e2 => simp [createRelationship, hres] at hcr
          | ok resolvedType =>
              simp only [createRelationship, hres] at hcr
              by_cases hk : kt.contains resolvedType
              · have hcand : candidateEdge kt ket (field, fieldType, parentTypeName) =
                    some (parentTypeName ++ " " ++ getRelationshipType ket resolvedType ++
                      " " ++ getCardinality (some field) ++ " " ++ resolvedType) := by
                  simp only [candidateEdge, hres]
                  rw [if_pos hk]
                rw [if_pos hk] at hcr
                by_cases hs : st.relationSet.contains
                    (parentTypeName ++ " " ++ getRelationshipType ket resolvedType ++
                      " " ++ getCardinality (some field) ++ " " ++ resolvedType)
                · rw [if_pos hs] at hcr
                  injection hcr with hcr1
                  subst hcr1
                  have hsmem : parentTypeName ++ " " ++ getRelationshipType ket resolvedType ++
                      " " ++ getCardinality (some field) ++ " " ++ resolvedType ∈ st.relations := by
                    rw [← hinv]
                    simpa using hs
                  obtain ⟨hinv', ⟨added, hadd, hsub⟩, hmem, hnd⟩ := ih st st' hinv hfold
                  rw [List.filterMap_cons_some hcand]
                  refine ⟨hinv', ⟨added, hadd, hsub.trans (List.sublist_cons_self _ _)⟩,
                    fun e => ?_, hnd⟩
                  rw [hmem e]
                  simp only [List.mem_cons]
                  constructor
                  · rintro (h | h)
                    · exact Or.inl h
                    · exact Or.inr (Or.inr h)
                  · rintro (h | h | h)
                    · exact Or.inl h
                    · exact Or.inl (h ▸ hsmem)
                    · exact Or.inr h
                · rw [if_neg hs] at hcr
                  injection hcr with hcr1
                  subst hcr1
                  have hnotmem : parentTypeName ++ " " ++ getRelationshipType ket resolvedType ++
                      " " ++ getCardinality (some field) ++ " " ++ resolvedType ∉ st.relations := by
                    rw [← hinv]
                    simpa using hs
                  have hinv1 : (GenState.mk st.lines
                      (st.relations ++ [parentTypeName ++ " " ++
                        getRelationshipType ket resolvedType ++ " " ++
                        getCardinality (some field) ++ " " ++ resolvedType])
                      (st.relationSet ++ [parentTypeName ++ " " ++
                        getRelationshipType ket resolvedType ++ " " ++
                        getCardinality (some field) ++ " " ++ resolvedType])).relationSet =
                      (GenState.mk st.lines
                      (st.relations ++ [parentTypeName ++ " " ++
                        getRelationshipType ket resolvedType ++ " " ++
                        getCardinality (some field) ++ " " ++ resolvedType])
                      (st.relationSet ++ [parentTypeName ++ " " ++
                        getRelationshipType ket resolvedType ++ " " ++
                        getCardinality (some field) ++ " " ++ resolvedType])).relations := by
                    simp [hinv]
                  obtain ⟨hinv', ⟨added, hadd, hsub⟩, hmem, hnd⟩ :=
                    ih _ st' hinv1 hfold
                  simp only at hadd hmem
                  rw [List.filterMap_cons_some hcand]
                  refine ⟨hinv',
                    ⟨(parentTypeName ++ " " ++ getRelationshipType ket resolvedType ++
                      " " ++ getCardinality (some field) ++ " " ++ resolvedType) :: added,
                      by rw [hadd]; simp, hsub.cons₂ _⟩,
                    fun e => ?_, fun hnodup => ?_⟩
                  · rw [hmem e]
                    simp only [List.mem_cons, List.mem_append, List.mem_singleton]
                    tauto
                  · apply hnd
                    rw [List.nodup_append]
                    refine ⟨hnodup, List.nodup_singleton _, ?_⟩
                    intro a ha hb
                    rw [List.mem_singleton] at hb
                    exact hnotmem (hb ▸ ha)
              · have hcand : candidateEdge kt ket (field, fieldType, parentTypeName) =
                    none := by
                  simp only [candidateEdge, hres]
                  rw [if_neg hk]
                rw [if_neg hk] at hcr
                injection hcr with hcr1
                subst hcr1
                rw [List.filterMap_cons_none hcand]
                exact ih st st' hinv hfold

/-- C5: over any sequence of field-relationship insertions of one diagram
generation starting from a fresh state, the accumulated relations list
never holds two identical edge strings (source, kind, cardinality and
target are all part of the string), edges that differ only in cardinality
are kept as separate entries, the dedup set and the output list agree, and
the output preserves the insertion order of the distinct candidate
edges. -/
theorem relationship_dedup_invariant (kt ket ls : List String)
    (reqs : List (PBField × String × String)) (st' : GenState)
    (h : foldCreateRelationship kt ket ⟨ls, [], []⟩ reqs = .ok st') :
    st'.relations.Nodup ∧
    st'.relationSet = st'.relations ∧
    st'.relations.Sublist (reqs.filterMap (candidateEdge kt ket)) ∧
    (∀ e, e ∈ st'.relations ↔ e ∈ reqs.filterMap (candidateEdge kt ket)) := by
  obtain ⟨hinv', ⟨added, hadd, hsub⟩, hmem, hnd⟩ :=
    foldCreate_invariant kt ket reqs ⟨ls, [], []⟩ st' rfl h
  simp only at hadd hmem
  refine ⟨hnd (List.nodup_nil), hinv', ?_, fun e => by rw [hmem e]; simp⟩
  rw [hadd]
  simpa using hsub

/-- Witness for C5: three references from `User` to known type `Address`
(required, repeated, then required again) produce exactly two edges — the
two distinct cardinalities — with the duplicate combination dropped and
insertion order kept. -/
theorem relationship_dedup_invariant_witness :
    foldCreateRelationship ["User", "Address"] [] ⟨[], [], []⟩ c5Reqs =
      .ok c5FinalState ∧
    c5FinalState.relations.Nodup ∧
    c5FinalState.relationSet = c5FinalState.relations ∧
    c5FinalState.relations =
      ["User --o \"1\" Address", "User --o \"0..*\" Address"] := by
  have hfold : foldCreateRelationship ["User", "Address"] [] ⟨[], [], []⟩ c5Reqs =
      .ok c5FinalState := rfl
  have h := relationship_dedup_invariant ["User", "Address"] [] []
    c5Reqs c5FinalState hfold
  exact ⟨hfold, h.1, h.2.1, rfl⟩

/-! ### Claim C7: package grouping decision for short paths -/

/-- C7 (amended): for every input tree in which at most one namespace
level directly contains content — which holds for every single-file
schema, whose types all live at the package leaf — a non-empty package
path of at most 2 dot-separated segments whose last segment is not in the
meaningful-suffix vocabulary yields a negative package-block decision, and
the emitted diagram is exactly the unwrapped (flattened) emission, whose
construction pushes no `package "..."` grouping line; when several
namespace levels contain content the code wraps regardless of path length
(see the counterexample). -/
theorem package_skip_short_paths (kt ket : List String) (root : PValue)
    (packageName : String)
    (hne : packageName ≠ "" ∧ trimString packageName ≠ "")
    (hlen : (splitDot packageName).length ≤ 2)
    (hsuffix : meaningfulNamesWrap.contains
      (toLowerString ((splitDot packageName).getLastD "")) = false)
    (hlevels : countContentAtLevels root ≤ 1) :
    shouldUsePackageBlock (splitDot packageName) (countContentAtLevels root) = false ∧
    genLines kt ket root packageName = genLinesFlattened kt ket root := by
  have hwrap : shouldUsePackageBlock (splitDot packageName)
      (countContentAtLevels root) = false := by
    unfold shouldUsePackageBlock
    rw [if_neg (by omega : ¬(1 < countContentAtLevels root))]
    rw [if_neg (by simpa using hsuffix)]
    rw [if_neg (by omega :
      ¬(3 ≤ (splitDot packageName).length ∧ (splitDot packageName).length ≤ 6))]
    rw [if_pos hlen]
  refine ⟨hwrap, ?_⟩
  unfold genLines genLinesFlattened analyzePackageStructure
  simp [hwrap, if_pos hne]

/-- Witness for C7 at the example schema: single-segment package `a` with
one message `User` — the decision is negative, the emission equals the
unwrapped form, and no emitted line starts with `package`. -/
theorem package_skip_short_paths_witness :
    shouldUsePackageBlock (splitDot "a") (countContentAtLevels c7ExTree) = false ∧
    genLines ["User"] [] c7ExTree "a" = genLinesFlattened ["User"] [] c7ExTree ∧
    genLinesFlattened ["User"] [] c7ExTree = Except.ok c7ExLines ∧
    c7ExLines.all (fun l => !("package".data.isPrefixOf l.data)) = true := by
  have h := package_skip_short_paths ["User"] [] c7ExTree "a"
    ⟨by decide, by decide⟩ (by decide) (by decide) (by decide)
  exact ⟨h.1, h.2, rfl, by decide⟩

/-- C7 (counterexample): a schema tree with content at two namespace
levels and single-segment package `a` (not a meaningful suffix) still
emits a `package "a"` grouping wrapper, because the content-levels rule
runs before the short-path rule. -/
theorem package_wrap_counterexample :
    (splitDot "a").length ≤ 2 ∧
    meaningfulNamesWrap.contains (toLowerString ((splitDot "a").getLastD "")) = false ∧
    generateFromTree c7CexTree "a" = Except.ok c7CexLines ∧
    "package \"a\" \x7b" ∈ c7CexLines :=
  ⟨by decide, by decide, rfl, by decide⟩

/-! ### Claim C1: relationship kind per target classification -/

/-- C1 (code evaluation at the failing input): `getRelationshipType`
returns the AGGREGATION (reference, `--o`) marker for a known-message
target and the COMPOSITION (containment, `--*`) marker for a known-enum
target — the opposite of the claim, of the code's own comments (`Message
types = Composition (ownership/containment)`) and of the repository's
test expectations (`Outer --* "1" Inner` for a message target,
`User --o "1" Status` for an enum target); consequently, on the claim's
example schema the single emitted edge for `repeated Address addresses`
inside `User` is `User --o "0..*" Address` (reference kind, multiple
cardinality) rather than the containment kind. -/
theorem getRelationshipType_swapped :
    getRelationshipType [] "Address" = CONFIG_AGGREGATION ∧
    getRelationshipType ["Status"] "Status" = CONFIG_COMPOSITION ∧
    CONFIG_AGGREGATION ≠ CONFIG_COMPOSITION ∧
    generateFromTree c1ExampleTree "" = Except.ok c1ExampleLines ∧
    "User --o \"0..*\" Address" ∈ c1ExampleLines ∧
    "User --* \"0..*\" Address" ∉ c1ExampleLines ∧
    (c1ExampleLines.filter (fun l => "User ".data.isPrefixOf l.data)).length = 1 :=
  ⟨rfl, rfl, by decide, rfl, by decide, by decide, by decide⟩
